import Mathlib

/-!
# Verification of the `vw::platefile::BlobManager` segment allocator

Shallow embedding of `src/vw/Plate/BlobManager.cc` (Vision Workbench).
The allocator owns a growable list of blob records (a lock flag and a
write cursor each), a maximum blob count, a maximum blob size in bytes,
and a rotating search index.  All state updates of the C++ methods are
modelled as explicit state passing; the C++ `-1` failure code of
`get_next_available_blob` becomes `Option.none`, and thrown exceptions
(`ArgumentErr`, `BlobLimitErr`) become `Except.error` values.

C++ `int64`/`uint64` quantities (blob sizes and offsets) are modelled as
`Int`, indices and counts as `Nat`; the claims under study never reach
the 64-bit overflow range, so wraparound is not modelled.  Out-of-range
vector accesses are undefined behaviour in the C++; here `List.getD`
supplies a dummy record, and every theorem is stated under the
reachability hypotheses (at least one blob record, in-range index) that
the constructor establishes, so the dummy is never consulted.
-/

/-- One blob record: a lock flag and the current write offset, mirroring
the `BlobRecord` entries stored in `m_blob_locks`. -/
structure BlobRecord where
  locked : Bool
  current_blob_offset : Int
deriving DecidableEq

/-- Default record used only as the `List.getD` fallback for accesses that
are out-of-bounds (undefined behaviour) in the C++. -/
def blob_record_default : BlobRecord := ⟨false, 0⟩

/-- The allocator state: maximum blob size in bytes, maximum blob count,
rotating search index and the list of blob records. -/
structure BlobManager where
  m_max_blob_size : Int
  m_max_blobs : Nat
  m_blob_index : Nat
  m_blob_locks : List BlobRecord
deriving DecidableEq

/-- Errors thrown by the C++ code: `ArgumentErr` from the constructor's
`VW_ASSERT`, `BlobLimitErr` from `request_lock`. -/
inductive VwErr where
  | ArgumentErr
  | BlobLimitErr
deriving DecidableEq

/-- The inline eligibility condition of `get_next_available_blob`:
`!locked && current_blob_offset < m_max_blob_size`. -/
def BlobRecord.is_available (r : BlobRecord) (max_size : Int) : Prop :=
  r.locked = false ∧ r.current_blob_offset < max_size

instance (r : BlobRecord) (m : Int) : Decidable (r.is_available m) :=
  decidable_of_iff (r.locked = false ∧ r.current_blob_offset < m) Iff.rfl

/-- `BlobManager::increment_blob_index`: `++blob_index; if (blob_index >=
m_blob_locks.size()) blob_index = 0;` as a function of the list length. -/
def increment_blob_index (n : Nat) (blob_idx : Nat) : Nat :=
  if blob_idx + 1 ≥ n then 0 else blob_idx + 1

/-- In-place update of one record of `m_blob_locks`
(`m_blob_locks[i].field = v`); no-op when out of range, which is
undefined behaviour in the C++. -/
def modify_record : List BlobRecord → Nat → (BlobRecord → BlobRecord) → List BlobRecord
  | [], _, _ => []
  | r :: rs, 0, f => f r :: rs
  | r :: rs, i + 1, f => r :: modify_record rs i f

/-- The `while (m_blob_index != starting_blob)` scan of
`get_next_available_blob`: keeps advancing `blob_idx` until it finds an
available record (returning its index) or comes back to `starting_blob`.
The loop visits each index at most once, so any `fuel ≥` the list length
makes the recursion faithful to the C++ loop; the caller passes the list
length.  Returns the result and the final value of `m_blob_index`. -/
def scan_for_blob (locks : List BlobRecord) (max_size : Int) (starting_blob : Nat) :
    Nat → Nat → Option Nat × Nat
  | blob_idx, 0 => (none, blob_idx)
  | blob_idx, fuel + 1 =>
    if blob_idx = starting_blob then (none, blob_idx)
    else if (locks.getD blob_idx blob_record_default).is_available max_size then
      (some blob_idx, blob_idx)
    else
      scan_for_blob locks max_size starting_blob
        (increment_blob_index locks.length blob_idx) fuel

/-- `BlobManager::get_next_available_blob`: advance the search index,
return it if available, otherwise scan the rest of the cycle, and
otherwise grow the list (unless `m_max_blobs` is reached, in which case
the C++ returns `-1`, here `none`).  Returns the result together with
the updated manager state. -/
def get_next_available_blob (bm : BlobManager) : Option Nat × BlobManager :=
  let n := bm.m_blob_locks.length
  let idx1 := increment_blob_index n bm.m_blob_index
  if (bm.m_blob_locks.getD idx1 blob_record_default).is_available bm.m_max_blob_size then
    (some idx1, { bm with m_blob_index := idx1 })
  else
    match scan_for_blob bm.m_blob_locks bm.m_max_blob_size idx1
        (increment_blob_index n idx1) n with
    | (some found, final_idx) => (some found, { bm with m_blob_index := final_idx })
    | (none, final_idx) =>
      if bm.m_blob_locks.length ≥ bm.m_max_blobs then
        (none, { bm with m_blob_index := final_idx })
      else
        let new_locks := bm.m_blob_locks ++ [⟨false, 0⟩]
        (some (new_locks.length - 1),
         { bm with m_blob_index := final_idx, m_blob_locks := new_locks })

/-- The `BlobManager::BlobManager` constructor: converts megabytes to
bytes (`max_blob_size * 1024 * 1024`), rejects `initial_nblobs < 1` with
`ArgumentErr`, and initializes `initial_nblobs` unlocked records with
offset 0 and `m_blob_index = 0`. -/
def construct (max_blob_size : Int) (initial_nblobs : Int) (max_blobs : Nat) :
    Except VwErr BlobManager :=
  if initial_nblobs ≥ 1 then
    Except.ok
      { m_max_blob_size := max_blob_size * 1024 * 1024
        m_max_blobs := max_blobs
        m_blob_index := 0
        m_blob_locks := List.replicate initial_nblobs.toNat ⟨false, 0⟩ }
  else
    Except.error VwErr.ArgumentErr

/-- `BlobManager::num_blobs`. -/
def num_blobs (bm : BlobManager) : Nat := bm.m_blob_locks.length

/-- `BlobManager::max_blob_size` accessor. -/
def max_blob_size (bm : BlobManager) : Int := bm.m_max_blob_size

/-- `BlobManager::request_lock`: poll for an available blob, throw
`BlobLimitErr` when none (the `-1` case), otherwise set its `locked`
flag and return its index.  The `size` argument is unused by the C++
body. -/
def request_lock (bm : BlobManager) (size : Int) : Except VwErr Nat × BlobManager :=
  match get_next_available_blob bm with
  | (none, bm1) => (Except.error VwErr.BlobLimitErr, bm1)
  | (some next_available_blob, bm1) =>
    (Except.ok next_available_blob,
     { bm1 with m_blob_locks := (modify_record bm1.m_blob_locks next_available_blob
         (fun r => { r with locked := true })) })

/-- `BlobManager::release_lock`: store the new write offset and clear the
`locked` flag of record `blob_id`.  The condition-variable broadcast has
no effect on the allocator state. -/
def release_lock (bm : BlobManager) (blob_id : Nat) (blob_offset : Int) : BlobManager :=
  { bm with m_blob_locks := (modify_record bm.m_blob_locks blob_id
      (fun r => { r with current_blob_offset := blob_offset, locked := false })) }

/-- The record at index `i` (dummy when out of range). -/
def blob_at (bm : BlobManager) (i : Nat) : BlobRecord :=
  bm.m_blob_locks.getD i blob_record_default

/-- A single-threaded call against the allocator: a `request_lock` with
some size, or a `release_lock` with some id and offset. -/
inductive Op where
  | req (size : Int)
  | rel (id : Nat) (off : Int)
deriving DecidableEq

/-- Effect of one call on the allocator state. -/
def step (bm : BlobManager) : Op → BlobManager
  | Op.req s => (request_lock bm s).2
  | Op.rel i off => release_lock bm i off

/-- Effect of a sequence of calls. -/
def run (bm : BlobManager) (ops : List Op) : BlobManager := ops.foldl step bm

/-- `k` consecutive `request_lock` calls (sizes are irrelevant to the code). -/
def iter_request : Nat → BlobManager → BlobManager
  | 0, bm => bm
  | k + 1, bm => (request_lock (iter_request k bm) 0).2

/-- One round of the round-robin scenario: a `request_lock` immediately
followed by `release_lock` of the returned id at offset `off`.  The
error branch is unreachable under the hypotheses of the round-robin
theorem. -/
def cycle_step (off sz : Int) (bm : BlobManager) : Nat × BlobManager :=
  match request_lock bm sz with
  | (Except.ok i, bm1) => (i, release_lock bm1 i off)
  | (Except.error _, bm1) => (num_blobs bm1, bm1)

/-- The ids returned by `k` consecutive rounds of `cycle_step`; round
`j` uses release offset `offs j` and request size `szs j`. -/
def cycle_ids (offs szs : Nat → Int) : Nat → BlobManager → List Nat
  | 0, _ => []
  | k + 1, bm =>
    (cycle_step (offs 0) (szs 0) bm).1 ::
      cycle_ids (fun j => offs (j + 1)) (fun j => szs (j + 1)) k
        (cycle_step (offs 0) (szs 0) bm).2

/-- Number of steps the wrapping search takes to go from `a` to `b` in a
cycle of length `n` (both below `n`). -/
def cyc_dist (n a b : Nat) : Nat := if a ≤ b then b - a else n + b - a

/-- The spec's saturation scenario: `N` unlocked empty records, blob cap
`N`, maximum blob size `S` bytes, search index 0 (the state the
constructor produces for `initial_nblobs = max_blobs = N`). -/
def fresh_pool (S : Int) (N : Nat) : BlobManager :=
  BlobManager.mk S N 0 (List.replicate N ⟨false, 0⟩)

/-! ## Basic lemmas about the record-list operations -/

lemma length_modify_record (l : List BlobRecord) (i : Nat) (f : BlobRecord → BlobRecord) :
    (modify_record l i f).length = l.length := by
  induction l generalizing i with
  | nil => rfl
  | cons r rs ih =>
    cases i with
    | zero => rfl
    | succ j => simpa [modify_record] using ih j

lemma getD_modify_record_self (l : List BlobRecord) (i : Nat) (f : BlobRecord → BlobRecord)
    (d : BlobRecord) (h : i < l.length) :
    (modify_record l i f).getD i d = f (l.getD i d) := by
  induction l generalizing i with
  | nil => simp at h
  | cons r rs ih =>
    cases i with
    | zero => rfl
    | succ j => simpa [modify_record] using ih j (by simpa using h)

lemma getD_modify_record_ne (l : List BlobRecord) (i j : Nat) (f : BlobRecord → BlobRecord)
    (d : BlobRecord) (h : j ≠ i) :
    (modify_record l i f).getD j d = l.getD j d := by
  induction l generalizing i j with
  | nil => rfl
  | cons r rs ih =>
    cases i with
    | zero =>
      cases j with
      | zero => exact absurd rfl h
      | succ k => rfl
    | succ i' =>
      cases j with
      | zero => rfl
      | succ k => simpa [modify_record] using ih i' k (by omega)

lemma modify_record_append (l : List BlobRecord) (r : BlobRecord) (f : BlobRecord → BlobRecord) :
    modify_record (l ++ [r]) l.length f = l ++ [f r] := by
  induction l with
  | nil => rfl
  | cons a as ih => simpa [modify_record] using ih

lemma getD_append_lt (l l' : List BlobRecord) (i : Nat) (d : BlobRecord) (h : i < l.length) :
    (l ++ l').getD i d = l.getD i d := by
  induction l generalizing i with
  | nil => simp at h
  | cons a as ih =>
    cases i with
    | zero => rfl
    | succ j => simpa using ih j (by simpa using h)

lemma getD_append_self (l : List BlobRecord) (r : BlobRecord) (d : BlobRecord) :
    (l ++ [r]).getD l.length d = r := by
  induction l with
  | nil => rfl
  | cons a as ih => simpa using ih

lemma getD_replicate (n i : Nat) (r d : BlobRecord) (h : i < n) :
    (List.replicate n r).getD i d = r := by
  induction n generalizing i with
  | zero => omega
  | succ m ih =>
    cases i with
    | zero => rfl
    | succ j => simpa [List.replicate] using ih j (by omega)

/-! ## Lemmas about the rotating index and cyclic distance -/

lemma increment_blob_index_lt (n i : Nat) (h : 0 < n) : increment_blob_index n i < n := by
  unfold increment_blob_index; split <;> omega

lemma increment_blob_index_eq_mod (n i : Nat) (h : i < n) :
    increment_blob_index n i = (i + 1) % n := by
  unfold increment_blob_index
  split
  · have he : i + 1 = n := by omega
    simp [he]
  · rw [Nat.mod_eq_of_lt (by omega)]

lemma cyc_dist_self (n a : Nat) : cyc_dist n a a = 0 := by
  unfold cyc_dist; simp

lemma cyc_dist_lt (n a b : Nat) (ha : a < n) (hb : b < n) : cyc_dist n a b < n := by
  unfold cyc_dist; split <;> omega

lemma cyc_dist_increment (n a b : Nat) (ha : a < n) (hb : b < n) (h : a ≠ b) :
    cyc_dist n (increment_blob_index n a) b + 1 = cyc_dist n a b := by
  unfold cyc_dist increment_blob_index
  split_ifs <;> omega

lemma cyc_dist_from_increment (n a : Nat) (ha : a < n) :
    cyc_dist n (increment_blob_index n a) a = n - 1 := by
  unfold cyc_dist increment_blob_index
  split_ifs <;> omega

lemma cyc_dist_lt_to_starting (n st i : Nat) (hst : st < n) (hi : i < n) (hne : i ≠ st) :
    cyc_dist n (increment_blob_index n st) i < cyc_dist n (increment_blob_index n st) st := by
  unfold cyc_dist increment_blob_index
  split_ifs <;> omega

/-! ## Behaviour of the scan loop -/

lemma scan_for_blob_sound (locks : List BlobRecord) (ms : Int) (st : Nat) :
    ∀ fuel idx j fin, idx < locks.length →
      scan_for_blob locks ms st idx fuel = (some j, fin) →
      fin = j ∧ j < locks.length ∧
      (locks.getD j blob_record_default).is_available ms := by
  intro fuel
  induction fuel with
  | zero => intro idx j fin _ h; simp [scan_for_blob] at h
  | succ fuel ih =>
    intro idx j fin hidx h
    simp only [scan_for_blob] at h
    by_cases h1 : idx = st
    · rw [if_pos h1] at h; simp at h
    · rw [if_neg h1] at h
      by_cases h2 : (locks.getD idx blob_record_default).is_available ms
      · rw [if_pos h2] at h
        obtain ⟨hj, hfin⟩ := Prod.mk.injEq .. ▸ h
        simp only [Option.some.injEq] at hj
        exact ⟨by omega, hj ▸ hidx, hj ▸ h2⟩
      · rw [if_neg h2] at h
        exact ih _ j fin (increment_blob_index_lt _ _ (by omega)) h

lemma scan_for_blob_final_lt (locks : List BlobRecord) (ms : Int) (st : Nat) :
    ∀ fuel idx, idx < locks.length →
      (scan_for_blob locks ms st idx fuel).2 < locks.length := by
  intro fuel
  induction fuel with
  | zero => intro idx hidx; simpa [scan_for_blob] using hidx
  | succ fuel ih =>
    intro idx hidx
    simp only [scan_for_blob]
    by_cases h1 : idx = st
    · rw [if_pos h1]; exact hidx
    · rw [if_neg h1]
      by_cases h2 : (locks.getD idx blob_record_default).is_available ms
      · rw [if_pos h2]; exact hidx
      · rw [if_neg h2]
        exact ih _ (increment_blob_index_lt _ _ (by omega))

lemma scan_for_blob_none (locks : List BlobRecord) (ms : Int) (st : Nat)
    (hall : ∀ i, i < locks.length →
      ¬ (locks.getD i blob_record_default).is_available ms)
    (hst : st < locks.length) :
    ∀ fuel idx, idx < locks.length → cyc_dist locks.length idx st < fuel →
      scan_for_blob locks ms st idx fuel = (none, st) := by
  intro fuel
  induction fuel with
  | zero => intro idx _ hd; omega
  | succ fuel ih =>
    intro idx hidx hd
    simp only [scan_for_blob]
    by_cases h1 : idx = st
    · rw [if_pos h1, h1]
    · rw [if_neg h1, if_neg (hall idx hidx)]
      have hdec := cyc_dist_increment locks.length idx st hidx hst h1
      exact ih (increment_blob_index locks.length idx)
        (increment_blob_index_lt _ _ (by omega)) (by omega)

lemma scan_for_blob_finds (locks : List BlobRecord) (ms : Int) (st : Nat)
    (hst : st < locks.length) (i : Nat) (hi : i < locks.length)
    (hav : (locks.getD i blob_record_default).is_available ms) :
    ∀ fuel idx, idx < locks.length →
      cyc_dist locks.length idx i < cyc_dist locks.length idx st →
      cyc_dist locks.length idx st < fuel →
      ∃ j, scan_for_blob locks ms st idx fuel = (some j, j) := by
  intro fuel
  induction fuel with
  | zero => intro idx _ _ hd; omega
  | succ fuel ih =>
    intro idx hidx hlt hd
    have h1 : idx ≠ st := by
      intro he
      rw [he, cyc_dist_self] at hlt
      omega
    simp only [scan_for_blob]
    rw [if_neg h1]
    by_cases h2 : (locks.getD idx blob_record_default).is_available ms
    · exact ⟨idx, by rw [if_pos h2]⟩
    · rw [if_neg h2]
      have hnei : idx ≠ i := by
        intro he
        exact h2 (he ▸ hav)
      have hd1 := cyc_dist_increment locks.length idx i hidx hi hnei
      have hd2 := cyc_dist_increment locks.length idx st hidx hst h1
      exact ih (increment_blob_index locks.length idx)
        (increment_blob_index_lt _ _ (by omega)) (by omega) (by omega)


/-! ## Behaviour of `get_next_available_blob` -/

/-- Case analysis on the four control paths of `get_next_available_blob`:
the quick hit on the freshly advanced index, a hit found by the scan
loop, the capacity failure, and the growth path. -/
lemma get_next_cases (bm : BlobManager) (motive : Option Nat × BlobManager → Prop)
    (quick : ∀ idx1,
      idx1 = increment_blob_index bm.m_blob_locks.length bm.m_blob_index →
      (bm.m_blob_locks.getD idx1 blob_record_default).is_available bm.m_max_blob_size →
      motive (some idx1, { bm with m_blob_index := idx1 }))
    (found : ∀ idx1 j fin,
      idx1 = increment_blob_index bm.m_blob_locks.length bm.m_blob_index →
      ¬ (bm.m_blob_locks.getD idx1 blob_record_default).is_available bm.m_max_blob_size →
      scan_for_blob bm.m_blob_locks bm.m_max_blob_size idx1
        (increment_blob_index bm.m_blob_locks.length idx1) bm.m_blob_locks.length =
        (some j, fin) →
      motive (some j, { bm with m_blob_index := fin }))
    (capped : ∀ idx1 fin,
      idx1 = increment_blob_index bm.m_blob_locks.length bm.m_blob_index →
      ¬ (bm.m_blob_locks.getD idx1 blob_record_default).is_available bm.m_max_blob_size →
      scan_for_blob bm.m_blob_locks bm.m_max_blob_size idx1
        (increment_blob_index bm.m_blob_locks.length idx1) bm.m_blob_locks.length =
        (none, fin) →
      bm.m_blob_locks.length ≥ bm.m_max_blobs →
      motive (none, { bm with m_blob_index := fin }))
    (grow : ∀ idx1 fin,
      idx1 = increment_blob_index bm.m_blob_locks.length bm.m_blob_index →
      ¬ (bm.m_blob_locks.getD idx1 blob_record_default).is_available bm.m_max_blob_size →
      scan_for_blob bm.m_blob_locks bm.m_max_blob_size idx1
        (increment_blob_index bm.m_blob_locks.length idx1) bm.m_blob_locks.length =
        (none, fin) →
      bm.m_blob_locks.length < bm.m_max_blobs →
      motive (some ((bm.m_blob_locks ++ [(⟨false, 0⟩ : BlobRecord)]).length - 1),
        { bm with m_blob_index := fin,
                  m_blob_locks := bm.m_blob_locks ++ [(⟨false, 0⟩ : BlobRecord)] })) :
    motive (get_next_available_blob bm) := by
  simp only [get_next_available_blob]
  by_cases hq : (bm.m_blob_locks.getD
      (increment_blob_index bm.m_blob_locks.length bm.m_blob_index)
      blob_record_default).is_available bm.m_max_blob_size
  · rw [if_pos hq]
    exact quick _ rfl hq
  · rw [if_neg hq]
    cases hsc : scan_for_blob bm.m_blob_locks bm.m_max_blob_size
        (increment_blob_index bm.m_blob_locks.length bm.m_blob_index)
        (increment_blob_index bm.m_blob_locks.length
          (increment_blob_index bm.m_blob_locks.length bm.m_blob_index))
        bm.m_blob_locks.length with
    | mk res fin =>
      cases res with
      | some j =>
        exact found _ j fin rfl hq hsc
      | none =>
        by_cases hcap : bm.m_blob_locks.length ≥ bm.m_max_blobs
        · simpa only [if_pos hcap] using capped _ fin rfl hq hsc hcap
        · simpa only [if_neg hcap] using grow _ fin rfl hq hsc (by omega)

/-- Whatever the outcome, the poll preserves the size and count limits,
and either leaves the record list unchanged or appends one fresh
unlocked record (the latter only below the blob cap). -/
lemma get_next_state (bm : BlobManager) :
    ((get_next_available_blob bm).2.m_blob_locks = bm.m_blob_locks ∨
      ((get_next_available_blob bm).2.m_blob_locks =
          bm.m_blob_locks ++ [(⟨false, 0⟩ : BlobRecord)] ∧
        num_blobs bm < bm.m_max_blobs)) ∧
    (get_next_available_blob bm).2.m_max_blob_size = bm.m_max_blob_size ∧
    (get_next_available_blob bm).2.m_max_blobs = bm.m_max_blobs := by
  apply get_next_cases bm (motive := fun p =>
    (p.2.m_blob_locks = bm.m_blob_locks ∨
      (p.2.m_blob_locks = bm.m_blob_locks ++ [(⟨false, 0⟩ : BlobRecord)] ∧
        num_blobs bm < bm.m_max_blobs)) ∧
    p.2.m_max_blob_size = bm.m_max_blob_size ∧ p.2.m_max_blobs = bm.m_max_blobs)
  · exact fun idx1 _ _ => ⟨Or.inl rfl, rfl, rfl⟩
  · exact fun idx1 j fin _ _ _ => ⟨Or.inl rfl, rfl, rfl⟩
  · exact fun idx1 fin _ _ _ _ => ⟨Or.inl rfl, rfl, rfl⟩
  · exact fun idx1 fin _ _ _ hlt => ⟨Or.inr ⟨rfl, hlt⟩, rfl, rfl⟩

/-- The search index ends up in range of the (possibly grown) list. -/
lemma get_next_index_lt (bm : BlobManager) (hn : 0 < num_blobs bm) :
    (get_next_available_blob bm).2.m_blob_index <
      (get_next_available_blob bm).2.m_blob_locks.length := by
  apply get_next_cases bm (motive := fun p =>
    p.2.m_blob_index < p.2.m_blob_locks.length)
  · intro idx1 he _
    exact he ▸ increment_blob_index_lt _ _ hn
  · intro idx1 j fin he _ hsc
    obtain ⟨hf, hj, -⟩ := scan_for_blob_sound bm.m_blob_locks bm.m_max_blob_size idx1 _ _ j fin
      (increment_blob_index_lt _ _ hn) hsc
    simpa [hf] using hj
  · intro idx1 fin he _ hsc _
    have := scan_for_blob_final_lt bm.m_blob_locks bm.m_max_blob_size idx1
      bm.m_blob_locks.length (increment_blob_index bm.m_blob_locks.length idx1)
      (increment_blob_index_lt _ _ hn)
    simpa [hsc] using this
  · intro idx1 fin he _ hsc _
    have := scan_for_blob_final_lt bm.m_blob_locks bm.m_max_blob_size idx1
      bm.m_blob_locks.length (increment_blob_index bm.m_blob_locks.length idx1)
      (increment_blob_index_lt _ _ hn)
    rw [hsc] at this
    simp only [List.length_append, List.length_singleton]
    omega

/-- A successful poll returns either an existing available record's index
(list unchanged) or the index of a freshly appended record. -/
lemma get_next_some_spec (bm : BlobManager) (hn : 0 < num_blobs bm) (j : Nat)
    (bm1 : BlobManager) (h : get_next_available_blob bm = (some j, bm1)) :
    (j < num_blobs bm ∧ (blob_at bm j).is_available bm.m_max_blob_size ∧
        bm1.m_blob_locks = bm.m_blob_locks) ∨
    (j = num_blobs bm ∧ num_blobs bm < bm.m_max_blobs ∧
        bm1.m_blob_locks = bm.m_blob_locks ++ [(⟨false, 0⟩ : BlobRecord)]) := by
  have hcases := get_next_cases bm (motive := fun p =>
    ∀ j' bm1', p = (some j', bm1') →
      (j' < num_blobs bm ∧ (blob_at bm j').is_available bm.m_max_blob_size ∧
          bm1'.m_blob_locks = bm.m_blob_locks) ∨
      (j' = num_blobs bm ∧ num_blobs bm < bm.m_max_blobs ∧
          bm1'.m_blob_locks = bm.m_blob_locks ++ [(⟨false, 0⟩ : BlobRecord)]))
  apply hcases _ _ _ _ j bm1 h
  · intro idx1 he hav j' bm1' hp
    obtain ⟨hj, hb⟩ := Prod.mk.injEq .. ▸ hp
    simp only [Option.some.injEq] at hj
    subst hj
    refine Or.inl ⟨he ▸ increment_blob_index_lt _ _ hn, hav, by rw [← hb]⟩
  · intro idx1 j0 fin he hnav hsc j' bm1' hp
    obtain ⟨hj, hb⟩ := Prod.mk.injEq .. ▸ hp
    simp only [Option.some.injEq] at hj
    subst hj
    obtain ⟨-, hjlt, hjav⟩ := scan_for_blob_sound bm.m_blob_locks bm.m_max_blob_size idx1 _ _ _ _
      (increment_blob_index_lt _ _ hn) hsc
    exact Or.inl ⟨hjlt, hjav, by rw [← hb]⟩
  · intro idx1 fin _ _ _ _ j' bm1' hp
    simp at hp
  · intro idx1 fin he hnav hsc hlt j' bm1' hp
    obtain ⟨hj, hb⟩ := Prod.mk.injEq .. ▸ hp
    simp only [Option.some.injEq, List.length_append, List.length_singleton] at hj
    refine Or.inr ⟨by unfold num_blobs; omega, hlt, by rw [← hb]⟩

/-- A failed poll means the cap is reached and no record is available;
the record list is untouched. -/
lemma get_next_none_spec (bm : BlobManager) (hn : 0 < num_blobs bm)
    (bm1 : BlobManager) (h : get_next_available_blob bm = (none, bm1)) :
    bm1.m_blob_locks = bm.m_blob_locks ∧
    num_blobs bm ≥ bm.m_max_blobs ∧
    ∀ i, i < num_blobs bm →
      ¬ (blob_at bm i).is_available bm.m_max_blob_size := by
  have hcases := get_next_cases bm (motive := fun p =>
    ∀ bm1', p = (none, bm1') →
      bm1'.m_blob_locks = bm.m_blob_locks ∧
      num_blobs bm ≥ bm.m_max_blobs ∧
      ∀ i, i < num_blobs bm →
        ¬ (blob_at bm i).is_available bm.m_max_blob_size)
  apply hcases _ _ _ _ bm1 h
  · intro idx1 _ _ bm1' hp
    simp at hp
  · intro idx1 j fin _ _ _ bm1' hp
    simp at hp
  · intro idx1 fin he hnav hsc hcap bm1' hp
    obtain ⟨-, hb⟩ := Prod.mk.injEq .. ▸ hp
    refine ⟨by rw [← hb], hcap, ?_⟩
    intro i hi hav
    by_cases hieq : i = idx1
    · exact hnav (hieq ▸ hav)
    · have hst : idx1 < bm.m_blob_locks.length := he ▸ increment_blob_index_lt _ _ hn
      obtain ⟨j, hj⟩ := scan_for_blob_finds bm.m_blob_locks bm.m_max_blob_size idx1 hst i hi hav
        bm.m_blob_locks.length (increment_blob_index bm.m_blob_locks.length idx1)
        (increment_blob_index_lt _ _ hn)
        (cyc_dist_lt_to_starting _ _ _ hst hi hieq)
        (by rw [cyc_dist_from_increment _ _ hst]; omega)
      rw [hj] at hsc
      simp at hsc
  · intro idx1 fin _ _ _ _ bm1' hp
    simp at hp

/-- When no record is available and the cap is reached, the poll fails,
moving only the search index (to the advanced position). -/
lemma get_next_complete (bm : BlobManager) (hn : 0 < num_blobs bm)
    (hall : ∀ i, i < num_blobs bm →
      ¬ (blob_at bm i).is_available bm.m_max_blob_size)
    (hcap : num_blobs bm ≥ bm.m_max_blobs) :
    get_next_available_blob bm = (none,
      { bm with m_blob_index :=
          increment_blob_index bm.m_blob_locks.length bm.m_blob_index }) := by
  have hidx1 : increment_blob_index bm.m_blob_locks.length bm.m_blob_index
      < bm.m_blob_locks.length := increment_blob_index_lt _ _ hn
  simp only [blob_at] at hall
  simp only [get_next_available_blob]
  rw [if_neg (hall _ hidx1)]
  rw [scan_for_blob_none bm.m_blob_locks bm.m_max_blob_size _ hall hidx1
      bm.m_blob_locks.length _ (increment_blob_index_lt _ _ hn)
      (by rw [cyc_dist_from_increment _ _ hidx1]; omega)]
  have hcap' : bm.m_blob_locks.length ≥ bm.m_max_blobs := hcap
  simp [hcap']

/-- When no record is available but the cap is not reached, the poll
appends one fresh unlocked record and returns its index (the previous
length); the search index ends at the advanced position. -/
lemma get_next_grow (bm : BlobManager) (hn : 0 < num_blobs bm)
    (hall : ∀ i, i < num_blobs bm →
      ¬ (blob_at bm i).is_available bm.m_max_blob_size)
    (hcap : num_blobs bm < bm.m_max_blobs) :
    get_next_available_blob bm = (some (num_blobs bm),
      BlobManager.mk bm.m_max_blob_size bm.m_max_blobs
        (increment_blob_index bm.m_blob_locks.length bm.m_blob_index)
        (bm.m_blob_locks ++ [(⟨false, 0⟩ : BlobRecord)])) := by
  have hidx1 : increment_blob_index bm.m_blob_locks.length bm.m_blob_index
      < bm.m_blob_locks.length := increment_blob_index_lt _ _ hn
  simp only [blob_at] at hall
  simp only [get_next_available_blob]
  rw [if_neg (hall _ hidx1)]
  rw [scan_for_blob_none bm.m_blob_locks bm.m_max_blob_size _ hall hidx1
      bm.m_blob_locks.length _ (increment_blob_index_lt _ _ hn)
      (by rw [cyc_dist_from_increment _ _ hidx1]; omega)]
  have hcap' : ¬ bm.m_blob_locks.length ≥ bm.m_max_blobs := by
    simp only [num_blobs] at hcap
    omega
  simp [hcap', num_blobs]

/-- A `none` poll result never touches the record list. -/
lemma get_next_none_locks (bm bm1 : BlobManager)
    (h : get_next_available_blob bm = (none, bm1)) :
    bm1.m_blob_locks = bm.m_blob_locks ∧
    bm1.m_max_blob_size = bm.m_max_blob_size ∧
    bm1.m_max_blobs = bm.m_max_blobs := by
  have hcases := get_next_cases bm (motive := fun p =>
    ∀ bm1', p = (none, bm1') →
      bm1'.m_blob_locks = bm.m_blob_locks ∧
      bm1'.m_max_blob_size = bm.m_max_blob_size ∧
      bm1'.m_max_blobs = bm.m_max_blobs)
  apply hcases _ _ _ _ bm1 h
  · intro idx1 _ _ bm1' hp
    simp at hp
  · intro idx1 j fin _ _ _ bm1' hp
    simp at hp
  · intro idx1 fin _ _ _ _ bm1' hp
    obtain ⟨-, hb⟩ := Prod.mk.injEq .. ▸ hp
    exact ⟨by rw [← hb], by rw [← hb], by rw [← hb]⟩
  · intro idx1 fin _ _ _ _ bm1' hp
    simp at hp

/-! ## Behaviour of `request_lock` and `release_lock` -/

/-- A failed `request_lock` carries `BlobLimitErr` and is exactly a
failed poll. -/
lemma request_lock_error_spec (bm : BlobManager) (sz : Int) (e : VwErr)
    (bm1 : BlobManager) (h : request_lock bm sz = (Except.error e, bm1)) :
    e = VwErr.BlobLimitErr ∧ get_next_available_blob bm = (none, bm1) := by
  unfold request_lock at h
  cases hg : get_next_available_blob bm with
  | mk res bm' =>
    rw [hg] at h
    cases res with
    | none =>
      obtain ⟨he, hb⟩ := Prod.mk.injEq .. ▸ h
      simp only [Except.error.injEq] at he
      exact ⟨he.symm, by rw [hb]⟩
    | some j => simp at h

/-- A successful `request_lock` is exactly a successful poll followed by
setting the `locked` flag of the returned index. -/
lemma request_lock_ok_spec (bm : BlobManager) (sz : Int) (j : Nat)
    (bm1 : BlobManager) (h : request_lock bm sz = (Except.ok j, bm1)) :
    ∃ bm', get_next_available_blob bm = (some j, bm') ∧
      bm1 = { bm' with m_blob_locks := (modify_record bm'.m_blob_locks j
        (fun r => { r with locked := true })) } := by
  unfold request_lock at h
  cases hg : get_next_available_blob bm with
  | mk res bm' =>
    rw [hg] at h
    cases res with
    | none => simp at h
    | some j0 =>
      obtain ⟨he, hb⟩ := Prod.mk.injEq .. ▸ h
      simp only [Except.ok.injEq] at he
      subst he
      exact ⟨bm', rfl, hb.symm⟩

/-- The blob returned by a successful `request_lock` is locked in the
post-state, its index is in range, and any other index keeps its record.
The returned index was either unlocked in the pre-state or is the fresh
index `num_blobs bm`. -/
lemma request_lock_ok_post (bm : BlobManager) (sz : Int) (j : Nat)
    (bm1 : BlobManager) (hn : 0 < num_blobs bm)
    (h : request_lock bm sz = (Except.ok j, bm1)) :
    (blob_at bm1 j).locked = true ∧ j < num_blobs bm1 ∧
    num_blobs bm ≤ num_blobs bm1 ∧ num_blobs bm1 ≤ num_blobs bm + 1 ∧
    bm1.m_max_blob_size = bm.m_max_blob_size ∧
    bm1.m_max_blobs = bm.m_max_blobs ∧
    (∀ i, i ≠ j → i < num_blobs bm → blob_at bm1 i = blob_at bm i) ∧
    ((j < num_blobs bm ∧ (blob_at bm j).locked = false ∧
        num_blobs bm1 = num_blobs bm) ∨
      (j = num_blobs bm ∧ num_blobs bm1 = num_blobs bm + 1 ∧
        num_blobs bm < bm.m_max_blobs ∧ blob_at bm1 j = ⟨true, 0⟩)) := by
  obtain ⟨bm', hg, hb⟩ := request_lock_ok_spec bm sz j bm1 h
  obtain ⟨hsz, hmb⟩ := (get_next_state bm).2
  rw [hg] at hsz hmb
  rcases get_next_some_spec bm hn j bm' hg with ⟨hjlt, hav, hlocks⟩ | ⟨hje, hcap, hlocks⟩
  · have hlen : num_blobs bm1 = num_blobs bm := by
      rw [hb]
      simp only [num_blobs, length_modify_record, hlocks]
    have hjlt1 : j < bm'.m_blob_locks.length := by
      rw [hlocks]; exact hjlt
    refine ⟨?_, ?_, by omega, by omega, by rw [hb]; exact hsz, by rw [hb]; exact hmb,
      ?_, Or.inl ⟨hjlt, hav.1, hlen⟩⟩
    · rw [hb]
      show ((modify_record bm'.m_blob_locks j _).getD j blob_record_default).locked = true
      rw [getD_modify_record_self _ _ _ _ hjlt1]
    · rw [hlen]; exact hjlt
    · intro i hne _
      rw [hb]
      show (modify_record bm'.m_blob_locks j _).getD i blob_record_default = blob_at bm i
      rw [getD_modify_record_ne _ _ _ _ _ hne, hlocks]
      rfl
  · have hlen : num_blobs bm1 = num_blobs bm + 1 := by
      rw [hb]
      simp only [num_blobs, length_modify_record, hlocks, List.length_append,
        List.length_singleton]
    have hjlt1 : j < bm'.m_blob_locks.length := by
      rw [hlocks]
      simp only [List.length_append, List.length_singleton]
      unfold num_blobs at hje
      omega
    have hself : blob_at bm1 j = ⟨true, 0⟩ := by
      rw [hb]
      show (modify_record bm'.m_blob_locks j _).getD j blob_record_default = _
      rw [getD_modify_record_self _ _ _ _ hjlt1, hlocks, hje]
      show (fun r => { r with locked := true })
        ((bm.m_blob_locks ++ [(⟨false, 0⟩ : BlobRecord)]).getD (num_blobs bm)
          blob_record_default) = _
      rw [show (num_blobs bm) = bm.m_blob_locks.length from rfl, getD_append_self]
    refine ⟨by rw [hself], by omega, by omega, by omega, by rw [hb]; exact hsz,
      by rw [hb]; exact hmb, ?_, Or.inr ⟨hje, hlen, hcap, hself⟩⟩
    intro i hne hi
    rw [hb]
    show (modify_record bm'.m_blob_locks j _).getD i blob_record_default = blob_at bm i
    rw [getD_modify_record_ne _ _ _ _ _ hne, hlocks,
      getD_append_lt _ _ _ _ hi]
    rfl

/-- `release_lock` rewrites exactly the targeted record (when in range)
and nothing else. -/
lemma release_lock_spec (bm : BlobManager) (i : Nat) (off : Int)
    (hi : i < num_blobs bm) :
    blob_at (release_lock bm i off) i = ⟨false, off⟩ ∧
    (∀ j, j ≠ i → blob_at (release_lock bm i off) j = blob_at bm j) ∧
    (release_lock bm i off).m_blob_index = bm.m_blob_index ∧
    (release_lock bm i off).m_max_blob_size = bm.m_max_blob_size ∧
    (release_lock bm i off).m_max_blobs = bm.m_max_blobs ∧
    num_blobs (release_lock bm i off) = num_blobs bm := by
  refine ⟨?_, ?_, rfl, rfl, rfl, ?_⟩
  · show (modify_record bm.m_blob_locks i _).getD i blob_record_default = _
    rw [getD_modify_record_self _ _ _ _ hi]
  · intro j hj
    show (modify_record bm.m_blob_locks i _).getD j blob_record_default = _
    rw [getD_modify_record_ne _ _ _ _ _ hj]
    rfl
  · show (modify_record bm.m_blob_locks i _).length = _
    rw [length_modify_record]
    rfl

/-! ## Step and trace lemmas -/

lemma step_num_blobs (bm : BlobManager) (op : Op) :
    num_blobs bm ≤ num_blobs (step bm op) ∧
    (step bm op).m_max_blob_size = bm.m_max_blob_size ∧
    (step bm op).m_max_blobs = bm.m_max_blobs := by
  cases op with
  | req s =>
    show num_blobs bm ≤ num_blobs (request_lock bm s).2 ∧
      (request_lock bm s).2.m_max_blob_size = bm.m_max_blob_size ∧
      (request_lock bm s).2.m_max_blobs = bm.m_max_blobs
    cases hr : (request_lock bm s).1 with
    | error e =>
      obtain ⟨-, hg⟩ := request_lock_error_spec bm s e (request_lock bm s).2
        (by rw [← hr])
      obtain ⟨hl, hsz, hmb⟩ := get_next_none_locks bm _ hg
      exact ⟨by unfold num_blobs; rw [hl], hsz, hmb⟩
    | ok j =>
      obtain ⟨bm', hg, hb⟩ := request_lock_ok_spec bm s j (request_lock bm s).2
        (by rw [← hr])
      obtain ⟨hlk, hsz, hmb⟩ := get_next_state bm
      rw [hg] at hlk hsz hmb
      constructor
      · rw [hb]
        show num_blobs bm ≤ (modify_record bm'.m_blob_locks j _).length
        rw [length_modify_record]
        rcases hlk with hsame | ⟨happ, -⟩
        · rw [hsame]
          exact Nat.le_refl _
        · rw [happ]
          simp only [num_blobs, List.length_append, List.length_singleton]
          omega
      · exact ⟨by rw [hb]; exact hsz, by rw [hb]; exact hmb⟩
  | rel i off =>
    refine ⟨?_, rfl, rfl⟩
    show num_blobs bm ≤ (modify_record bm.m_blob_locks i _).length
    rw [length_modify_record]
    exact Nat.le_refl _

lemma run_num_blobs (bm : BlobManager) (ops : List Op) :
    num_blobs bm ≤ num_blobs (run bm ops) ∧
    (run bm ops).m_max_blob_size = bm.m_max_blob_size ∧
    (run bm ops).m_max_blobs = bm.m_max_blobs := by
  induction ops generalizing bm with
  | nil => exact ⟨le_refl _, rfl, rfl⟩
  | cons op ops ih =>
    have hstep := step_num_blobs bm op
    have hrest := ih (step bm op)
    show num_blobs bm ≤ num_blobs (run (step bm op) ops) ∧
      (run (step bm op) ops).m_max_blob_size = bm.m_max_blob_size ∧
      (run (step bm op) ops).m_max_blobs = bm.m_max_blobs
    exact ⟨le_trans hstep.1 hrest.1, by rw [hrest.2.1, hstep.2.1],
      by rw [hrest.2.2, hstep.2.2]⟩

/-- A `request_lock` never hands out an index whose record is currently
locked. -/
lemma request_lock_ne_locked (bm : BlobManager) (sz : Int) (j : Nat)
    (bm1 : BlobManager) (hn : 0 < num_blobs bm)
    (h : request_lock bm sz = (Except.ok j, bm1))
    (i : Nat) (hi : i < num_blobs bm) (hlk : (blob_at bm i).locked = true) :
    j ≠ i := by
  obtain ⟨-, -, -, -, -, -, -, hcase⟩ := request_lock_ok_post bm sz j bm1 hn h
  rcases hcase with ⟨-, hunl, -⟩ | ⟨hje, -⟩
  · intro he
    rw [he, hlk] at hunl
    cases hunl
  · omega

/-- One step that is not a release of `i` keeps record `i` locked. -/
lemma step_preserves_locked (bm : BlobManager) (i : Nat) (op : Op)
    (hn : 0 < num_blobs bm) (hi : i < num_blobs bm)
    (hlk : (blob_at bm i).locked = true)
    (hop : ∀ off, op ≠ Op.rel i off) :
    (blob_at (step bm op) i).locked = true := by
  cases op with
  | req s =>
    show (blob_at (request_lock bm s).2 i).locked = true
    cases hr : (request_lock bm s).1 with
    | error e =>
      obtain ⟨-, hg⟩ := request_lock_error_spec bm s e (request_lock bm s).2
        (by rw [← hr])
      obtain ⟨hl, -, -⟩ := get_next_none_locks bm _ hg
      show ((request_lock bm s).2.m_blob_locks.getD i blob_record_default).locked = true
      rw [hl]
      exact hlk
    | ok j =>
      obtain ⟨-, -, -, -, -, -, hframe, -⟩ :=
        request_lock_ok_post bm s j (request_lock bm s).2 hn (by rw [← hr])
      have hne : j ≠ i := request_lock_ne_locked bm s j (request_lock bm s).2 hn
        (by rw [← hr]) i hi hlk
      rw [hframe i (fun he => hne he.symm) hi]
      exact hlk
  | rel j off =>
    have hne : j ≠ i := by
      intro he
      exact (hop off) (by rw [he])
    show (blob_at (release_lock bm j off) i).locked = true
    show ((modify_record bm.m_blob_locks j _).getD i blob_record_default).locked = true
    rw [getD_modify_record_ne _ _ _ _ _ (fun he => hne he.symm)]
    exact hlk

/-- Along any trace that never releases `i`, record `i` stays locked. -/
lemma run_preserves_locked (i : Nat) (ops : List Op) (bm : BlobManager)
    (hn : 0 < num_blobs bm) (hi : i < num_blobs bm)
    (hlk : (blob_at bm i).locked = true)
    (hop : ∀ off, Op.rel i off ∉ ops) :
    (blob_at (run bm ops) i).locked = true ∧ i < num_blobs (run bm ops) ∧
    0 < num_blobs (run bm ops) := by
  induction ops generalizing bm with
  | nil => exact ⟨hlk, hi, hn⟩
  | cons op ops ih =>
    have hhead : ∀ off, op ≠ Op.rel i off := by
      intro off he
      exact hop off (by rw [← he]; exact List.mem_cons_self op ops)
    have hmono := (step_num_blobs bm op).1
    show (blob_at (run (step bm op) ops) i).locked = true ∧ _
    exact ih (step bm op) (by omega) (by omega)
      (step_preserves_locked bm i op hn hi hlk hhead)
      (fun off hmem => hop off (List.mem_cons_of_mem op hmem))

/-! ## Counting locked records -/

/-- Number of records currently locked. -/
def locked_count (bm : BlobManager) : Nat :=
  bm.m_blob_locks.countP BlobRecord.locked

lemma exists_unlocked_of_countP_lt (l : List BlobRecord)
    (h : l.countP BlobRecord.locked < l.length) :
    ∃ i, i < l.length ∧ (l.getD i blob_record_default).locked = false := by
  induction l with
  | nil => simp at h
  | cons r rs ih =>
    by_cases hr : r.locked
    · have h' : rs.countP BlobRecord.locked < rs.length := by
        rw [List.countP_cons_of_pos _ _ hr, List.length_cons] at h
        omega
      obtain ⟨i, hi, hu⟩ := ih h'
      exact ⟨i + 1, by simpa using hi, hu⟩
    · exact ⟨0, by simp, by simpa using hr⟩

lemma all_locked_of_countP_eq (l : List BlobRecord)
    (h : l.countP BlobRecord.locked = l.length) :
    ∀ i, i < l.length → (l.getD i blob_record_default).locked = true := by
  induction l with
  | nil => intro i hi; simp at hi
  | cons r rs ih =>
    have hle := List.countP_le_length (l := rs) (p := BlobRecord.locked)
    by_cases hr : r.locked
    · have h' : rs.countP BlobRecord.locked = rs.length := by
        rw [List.countP_cons_of_pos _ _ hr, List.length_cons] at h
        omega
      intro i hi
      cases i with
      | zero => exact hr
      | succ j => exact ih h' j (by simpa using hi)
    · exfalso
      rw [List.countP_cons_of_neg _ _ (by simpa using hr), List.length_cons] at h
      omega

lemma countP_modify_lock (l : List BlobRecord) (i : Nat) (h : i < l.length)
    (hunl : (l.getD i blob_record_default).locked = false) :
    (modify_record l i (fun r => { r with locked := true })).countP
      BlobRecord.locked = l.countP BlobRecord.locked + 1 := by
  induction l generalizing i with
  | nil => simp at h
  | cons r rs ih =>
    cases i with
    | zero =>
      have hr : r.locked = false := hunl
      show List.countP BlobRecord.locked ({ r with locked := true } :: rs) = _
      rw [List.countP_cons_of_pos _ _ rfl,
        List.countP_cons_of_neg _ _ (by simpa using hr)]
    | succ j =>
      have hrec := ih j (by simpa using h) hunl
      show List.countP BlobRecord.locked (r :: modify_record rs j _) = _
      by_cases hr : r.locked
      · rw [List.countP_cons_of_pos _ _ hr, List.countP_cons_of_pos _ _ hr, hrec]
      · rw [List.countP_cons_of_neg _ _ (by simpa using hr),
          List.countP_cons_of_neg _ _ (by simpa using hr), hrec]

/-! ## The saturation trace: `N` requests against `N` records -/

/-- While some record is unlocked (all offsets zero, cap equal to the
record count), a `request_lock` succeeds and locks exactly one more
record. -/
lemma request_lock_count_step (bm : BlobManager) (N : Nat)
    (hN : num_blobs bm = N) (hmax : bm.m_max_blobs = N)
    (hS : 0 < bm.m_max_blob_size)
    (hoff : ∀ i, i < N → (blob_at bm i).current_blob_offset = 0)
    (hcnt : locked_count bm < N) :
    num_blobs (request_lock bm 0).2 = N ∧
    (request_lock bm 0).2.m_max_blobs = N ∧
    (request_lock bm 0).2.m_max_blob_size = bm.m_max_blob_size ∧
    (∀ i, i < N → (blob_at (request_lock bm 0).2 i).current_blob_offset = 0) ∧
    locked_count (request_lock bm 0).2 = locked_count bm + 1 := by
  have hn : 0 < num_blobs bm := by
    unfold locked_count at hcnt
    have := Nat.zero_le (bm.m_blob_locks.countP BlobRecord.locked)
    omega
  obtain ⟨iu, hiu, hiu_unl⟩ := exists_unlocked_of_countP_lt bm.m_blob_locks
    (by unfold locked_count at hcnt; unfold num_blobs at hN; omega)
  have hiu_av : (blob_at bm iu).is_available bm.m_max_blob_size := by
    refine ⟨hiu_unl, ?_⟩
    have := hoff iu (by unfold num_blobs at hN; omega)
    unfold blob_at at this ⊢
    rw [this]
    exact hS
  -- The request cannot fail, since an available record exists.
  cases hr : (request_lock bm 0).1 with
  | error e =>
    exfalso
    obtain ⟨-, hg⟩ := request_lock_error_spec bm 0 e (request_lock bm 0).2
      (by rw [← hr])
    obtain ⟨-, -, hall⟩ := get_next_none_spec bm hn (request_lock bm 0).2 hg
    exact hall iu (by unfold num_blobs at hN ⊢; omega) hiu_av
  | ok j =>
    obtain ⟨bm', hg, hb⟩ := request_lock_ok_spec bm 0 j (request_lock bm 0).2
      (by rw [← hr])
    rcases get_next_some_spec bm hn j bm' hg with ⟨hjlt, hav, hlocks⟩ |
      ⟨-, hcap, -⟩
    · have hjlt' : j < bm'.m_blob_locks.length := by rw [hlocks]; exact hjlt
      have hlen : num_blobs (request_lock bm 0).2 = N := by
        rw [hb]
        show (modify_record bm'.m_blob_locks j _).length = N
        rw [length_modify_record, hlocks]
        exact hN
      obtain ⟨hsz, hmb⟩ := (get_next_state bm).2
      rw [hg] at hsz hmb
      refine ⟨hlen, by rw [hb]; rw [show bm'.m_max_blobs = bm.m_max_blobs from hmb,
        hmax], by rw [hb]; exact hsz, ?_, ?_⟩
      · intro i hi
        by_cases hij : i = j
        · subst hij
          rw [hb]
          show BlobRecord.current_blob_offset
            ((modify_record bm'.m_blob_locks i _).getD i blob_record_default) = 0
          rw [getD_modify_record_self _ _ _ _ hjlt', hlocks]
          exact hoff i hi
        · rw [hb]
          show BlobRecord.current_blob_offset
            ((modify_record bm'.m_blob_locks j _).getD i blob_record_default) = 0
          rw [getD_modify_record_ne _ _ _ _ _ hij, hlocks]
          exact hoff i hi
      · rw [hb]
        show (modify_record bm'.m_blob_locks j _).countP BlobRecord.locked =
          locked_count bm + 1
        rw [hlocks]
        exact countP_modify_lock bm.m_blob_locks j hjlt hav.1
    · exfalso
      rw [hmax] at hcap
      unfold num_blobs at hcap hN
      omega

/-- State after `k` of the `N` saturating requests: everything preserved,
exactly `k` records locked. -/
lemma iter_request_inv (N : Nat) (S : Int) (hN : 0 < N) (hS : 0 < S) :
    ∀ k, k ≤ N →
      num_blobs (iter_request k (fresh_pool S N)) = N ∧
      (iter_request k (fresh_pool S N)).m_max_blobs = N ∧
      (iter_request k (fresh_pool S N)).m_max_blob_size = S ∧
      (∀ i, i < N →
        (blob_at (iter_request k (fresh_pool S N)) i).current_blob_offset = 0) ∧
      locked_count (iter_request k (fresh_pool S N)) = k := by
  intro k
  induction k with
  | zero =>
    intro _
    refine ⟨by simp [num_blobs, iter_request, fresh_pool], rfl, rfl, ?_, ?_⟩
    · intro i hi
      show BlobRecord.current_blob_offset
        ((List.replicate N (⟨false, 0⟩ : BlobRecord)).getD i blob_record_default) = 0
      rw [getD_replicate _ _ _ _ hi]
    · show (List.replicate N (⟨false, 0⟩ : BlobRecord)).countP BlobRecord.locked = 0
      rw [List.countP_eq_zero]
      intro a ha
      rw [List.eq_of_mem_replicate ha]
      simp
  | succ k ih =>
    intro hk
    obtain ⟨h1, h2, h3, h4, h5⟩ := ih (by omega)
    have hstep := request_lock_count_step _ N h1 h2 (by rw [h3]; exact hS) h4
      (by omega)
    show num_blobs (request_lock (iter_request k (fresh_pool S N)) 0).2 = N ∧ _
    rw [h3] at hstep
    refine ⟨hstep.1, hstep.2.1, hstep.2.2.1, hstep.2.2.2.1, ?_⟩
    have hlast := hstep.2.2.2.2
    rw [h5] at hlast
    exact hlast

/-! ## The round-robin trace -/

/-- When the freshly advanced index is available, the poll takes the
quick path. -/
lemma get_next_quick (bm : BlobManager)
    (hq : (bm.m_blob_locks.getD
      (increment_blob_index bm.m_blob_locks.length bm.m_blob_index)
      blob_record_default).is_available bm.m_max_blob_size) :
    get_next_available_blob bm =
      (some (increment_blob_index bm.m_blob_locks.length bm.m_blob_index),
       { bm with m_blob_index :=
          increment_blob_index bm.m_blob_locks.length bm.m_blob_index }) := by
  simp only [get_next_available_blob]
  rw [if_pos hq]

/-- Quick-path form of `request_lock`. -/
lemma request_lock_quick (bm : BlobManager) (sz : Int)
    (hq : (bm.m_blob_locks.getD
      (increment_blob_index bm.m_blob_locks.length bm.m_blob_index)
      blob_record_default).is_available bm.m_max_blob_size) :
    request_lock bm sz =
      (Except.ok (increment_blob_index bm.m_blob_locks.length bm.m_blob_index),
       BlobManager.mk bm.m_max_blob_size bm.m_max_blobs
        (increment_blob_index bm.m_blob_locks.length bm.m_blob_index)
        (modify_record bm.m_blob_locks
          (increment_blob_index bm.m_blob_locks.length bm.m_blob_index)
          (fun r => { r with locked := true }))) := by
  unfold request_lock
  rw [get_next_quick bm hq]

/-- Locking then releasing index `t` rewrites that record to
`⟨false, off⟩` and keeps all the others. -/
lemma lock_release_records (l : List BlobRecord) (t : Nat) (off : Int)
    (ht : t < l.length) (i : Nat) :
    (modify_record (modify_record l t (fun r => { r with locked := true })) t
      (fun r => { r with current_blob_offset := off, locked := false })).getD i
        blob_record_default =
      if i = t then ⟨false, off⟩ else l.getD i blob_record_default := by
  by_cases hie : i = t
  · subst hie
    rw [if_pos rfl,
      getD_modify_record_self _ _ _ _ (by rw [length_modify_record]; exact ht)]
  · rw [if_neg hie, getD_modify_record_ne _ _ _ _ _ hie,
      getD_modify_record_ne _ _ _ _ _ hie]

/-- One request-release round on an all-free pool: returns the next index
in cyclic order and restores an all-free pool (when the release offset is
below the maximum size). -/
lemma cycle_step_spec (bm : BlobManager) (off sz : Int)
    (hn : 0 < num_blobs bm) (hidx : bm.m_blob_index < num_blobs bm)
    (hfree : ∀ i, i < num_blobs bm → (blob_at bm i).locked = false ∧
      (blob_at bm i).current_blob_offset < bm.m_max_blob_size)
    (hoff : off < bm.m_max_blob_size) :
    (cycle_step off sz bm).1 = (bm.m_blob_index + 1) % num_blobs bm ∧
    num_blobs (cycle_step off sz bm).2 = num_blobs bm ∧
    (cycle_step off sz bm).2.m_max_blob_size = bm.m_max_blob_size ∧
    (cycle_step off sz bm).2.m_blob_index = (bm.m_blob_index + 1) % num_blobs bm ∧
    ∀ i, i < num_blobs bm → (blob_at (cycle_step off sz bm).2 i).locked = false ∧
      (blob_at (cycle_step off sz bm).2 i).current_blob_offset
        < bm.m_max_blob_size := by
  have hidx1lt : increment_blob_index bm.m_blob_locks.length bm.m_blob_index
      < num_blobs bm := increment_blob_index_lt _ _ hn
  have hq : (bm.m_blob_locks.getD
      (increment_blob_index bm.m_blob_locks.length bm.m_blob_index)
      blob_record_default).is_available bm.m_max_blob_size := by
    obtain ⟨hl, ho⟩ := hfree _ hidx1lt
    exact ⟨hl, ho⟩
  have hmod : increment_blob_index bm.m_blob_locks.length bm.m_blob_index =
      (bm.m_blob_index + 1) % num_blobs bm :=
    increment_blob_index_eq_mod _ _ hidx
  have hcyc : cycle_step off sz bm =
      (increment_blob_index bm.m_blob_locks.length bm.m_blob_index,
       release_lock (BlobManager.mk bm.m_max_blob_size bm.m_max_blobs
        (increment_blob_index bm.m_blob_locks.length bm.m_blob_index)
        (modify_record bm.m_blob_locks
          (increment_blob_index bm.m_blob_locks.length bm.m_blob_index)
          (fun r => { r with locked := true })))
        (increment_blob_index bm.m_blob_locks.length bm.m_blob_index) off) := by
    unfold cycle_step
    rw [request_lock_quick bm sz hq]
  rw [hcyc]
  refine ⟨hmod, ?_, rfl, hmod, ?_⟩
  · show num_blobs (release_lock _ _ _) = _
    simp only [num_blobs, release_lock]
    rw [length_modify_record, length_modify_record]
  · intro i hi
    simp only [blob_at, release_lock]
    rw [lock_release_records bm.m_blob_locks _ off hidx1lt i]
    by_cases hie : i = increment_blob_index bm.m_blob_locks.length bm.m_blob_index
    · rw [if_pos hie]
      exact ⟨rfl, hoff⟩
    · rw [if_neg hie]
      exact hfree i hi

/-- The ids of `k` rounds on an all-free pool follow the rotating-index
formula, whatever the per-round offsets (below the maximum size) and
sizes. -/
lemma cycle_ids_formula : ∀ k (offs szs : Nat → Int) (bm : BlobManager),
    0 < num_blobs bm → bm.m_blob_index < num_blobs bm →
    (∀ i, i < num_blobs bm → (blob_at bm i).locked = false ∧
      (blob_at bm i).current_blob_offset < bm.m_max_blob_size) →
    (∀ j, offs j < bm.m_max_blob_size) →
    cycle_ids offs szs k bm =
      (List.range k).map (fun j => (bm.m_blob_index + 1 + j) % num_blobs bm) := by
  intro k
  induction k with
  | zero => intro offs szs bm _ _ _ _; rfl
  | succ k ih =>
    intro offs szs bm hn hidx hfree hoff
    obtain ⟨hid, hnum, hsz, hidx2, hfree2⟩ :=
      cycle_step_spec bm (offs 0) (szs 0) hn hidx hfree (hoff 0)
    show (cycle_step (offs 0) (szs 0) bm).1 ::
      cycle_ids (fun j => offs (j + 1)) (fun j => szs (j + 1)) k
        (cycle_step (offs 0) (szs 0) bm).2 = _
    have hrec := ih (fun j => offs (j + 1)) (fun j => szs (j + 1))
      (cycle_step (offs 0) (szs 0) bm).2 (by omega)
      (by rw [hnum, hidx2]; exact Nat.mod_lt _ hn)
      (by rw [hnum, hsz]; exact hfree2) (by intro j; rw [hsz]; exact hoff (j + 1))
    rw [hid, hrec, hnum, hidx2, List.range_succ_eq_map, List.map_cons,
      List.map_map]
    congr 1
    apply List.map_congr_left
    intro j hj
    show ((bm.m_blob_index + 1) % num_blobs bm + 1 + j) % num_blobs bm =
      (bm.m_blob_index + 1 + (j + 1)) % num_blobs bm
    conv_lhs => rw [Nat.add_assoc]
    rw [Nat.mod_add_mod]
    congr 1
    omega

/-! ## Claim theorems -/

/-- C7: construction fails with `ArgumentErr` exactly when
`initial_nblobs < 1`; on success it stores `max_blob_size * 1024 * 1024`
(= ×1,048,576) bytes, returned unchanged by the `max_blob_size` accessor,
creates exactly `initial_nblobs` unlocked records with zero write cursor,
and sets the search index to 0. -/
theorem construct_spec (mb init : Int) (maxb : Nat) :
    (construct mb init maxb = Except.error VwErr.ArgumentErr ↔ init < 1) ∧
    (∀ bm, construct mb init maxb = Except.ok bm →
      max_blob_size bm = mb * 1048576 ∧
      num_blobs bm = init.toNat ∧
      (∀ i, i < init.toNat → blob_at bm i = ⟨false, 0⟩) ∧
      bm.m_blob_index = 0) := by
  constructor
  · unfold construct
    by_cases h : init ≥ 1
    · rw [if_pos h]
      constructor
      · intro hc
        cases hc
      · intro hlt
        omega
    · rw [if_neg h]
      constructor
      · intro _
        omega
      · intro _
        rfl
  · intro bm hok
    unfold construct at hok
    by_cases h : init ≥ 1
    · rw [if_pos h] at hok
      obtain hbm := (Except.ok.injEq .. ▸ hok)
      subst hbm
      refine ⟨?_, ?_, ?_, rfl⟩
      · show mb * 1024 * 1024 = mb * 1048576
        rw [mul_assoc]
        norm_num
      · show (List.replicate init.toNat (⟨false, 0⟩ : BlobRecord)).length = init.toNat
        rw [List.length_replicate]
      · intro i hi
        show (List.replicate init.toNat (⟨false, 0⟩ : BlobRecord)).getD i
          blob_record_default = ⟨false, 0⟩
        rw [getD_replicate _ _ _ _ hi]
    · rw [if_neg h] at hok
      cases hok

/-- C7 witness: construction with 2 MB, 3 initial records, cap 7. -/
theorem construct_spec_witness :
    max_blob_size (BlobManager.mk (2 * 1024 * 1024) 7 0
      (List.replicate (Int.toNat 3) ⟨false, 0⟩)) = 2 * 1048576 ∧
    num_blobs (BlobManager.mk (2 * 1024 * 1024) 7 0
      (List.replicate (Int.toNat 3) ⟨false, 0⟩)) = Int.toNat 3 ∧
    blob_at (BlobManager.mk (2 * 1024 * 1024) 7 0
      (List.replicate (Int.toNat 3) ⟨false, 0⟩)) 1 = ⟨false, 0⟩ ∧
    (construct 2 0 7 = Except.error VwErr.ArgumentErr ↔ (0 : Int) < 1) := by
  obtain ⟨h1, h2, h3, -⟩ := (construct_spec 2 3 7).2 _ rfl
  exact ⟨h1, h2, h3 1 (by decide), (construct_spec 2 0 7).1⟩

/-- C10: `request_lock` ignores its `size` argument entirely: result and
post-state agree for any two sizes. -/
theorem request_lock_size_independent (bm : BlobManager) (s1 s2 : Int) :
    request_lock bm s1 = request_lock bm s2 := rfl

/-- C8: a `request_lock` that fails leaves the record list — in
particular every `locked` flag — exactly as it was. -/
theorem failed_request_lock_locks_nothing (bm : BlobManager) (sz : Int)
    (e : VwErr) (h : (request_lock bm sz).1 = Except.error e) :
    (request_lock bm sz).2.m_blob_locks = bm.m_blob_locks ∧
    ∀ i, (blob_at (request_lock bm sz).2 i).locked = (blob_at bm i).locked := by
  obtain ⟨-, hg⟩ := request_lock_error_spec bm sz e (request_lock bm sz).2
    (by rw [← h])
  have hl := (get_next_none_locks bm _ hg).1
  refine ⟨hl, ?_⟩
  intro i
  show ((request_lock bm sz).2.m_blob_locks.getD i blob_record_default).locked = _
  rw [hl]
  rfl

/-- C8 witness: one locked record at the cap; the request fails and the
list is untouched. -/
theorem failed_request_lock_locks_nothing_witness :
    (request_lock (BlobManager.mk 5 1 0 [⟨true, 0⟩]) 0).2.m_blob_locks =
      (BlobManager.mk 5 1 0 [⟨true, 0⟩]).m_blob_locks ∧
    (blob_at (request_lock (BlobManager.mk 5 1 0 [⟨true, 0⟩]) 0).2 0).locked =
      (blob_at (BlobManager.mk 5 1 0 [⟨true, 0⟩]) 0).locked := by
  obtain ⟨h1, h2⟩ := failed_request_lock_locks_nothing
    (BlobManager.mk 5 1 0 [⟨true, 0⟩]) 0 VwErr.BlobLimitErr rfl
  exact ⟨h1, h2 0⟩

/-- C9: `release_lock` on an in-range id rewrites exactly that record to
`⟨unlocked, new offset⟩`, leaving every other record, the search index,
the size/count limits and the record count unchanged. -/
theorem release_lock_frame (bm : BlobManager) (i : Nat) (off : Int)
    (hi : i < num_blobs bm) :
    blob_at (release_lock bm i off) i = ⟨false, off⟩ ∧
    (∀ j, j ≠ i → blob_at (release_lock bm i off) j = blob_at bm j) ∧
    (release_lock bm i off).m_blob_index = bm.m_blob_index ∧
    (release_lock bm i off).m_max_blob_size = bm.m_max_blob_size ∧
    (release_lock bm i off).m_max_blobs = bm.m_max_blobs ∧
    num_blobs (release_lock bm i off) = num_blobs bm :=
  release_lock_spec bm i off hi

/-- C9 witness: releasing record 0 of a two-record pool at offset 3. -/
theorem release_lock_frame_witness :
    blob_at (release_lock (BlobManager.mk 5 3 1 [⟨true, 0⟩, ⟨false, 2⟩]) 0 3) 0 =
      ⟨false, 3⟩ ∧
    blob_at (release_lock (BlobManager.mk 5 3 1 [⟨true, 0⟩, ⟨false, 2⟩]) 0 3) 1 =
      blob_at (BlobManager.mk 5 3 1 [⟨true, 0⟩, ⟨false, 2⟩]) 1 ∧
    num_blobs (release_lock (BlobManager.mk 5 3 1 [⟨true, 0⟩, ⟨false, 2⟩]) 0 3) =
      num_blobs (BlobManager.mk 5 3 1 [⟨true, 0⟩, ⟨false, 2⟩]) := by
  obtain ⟨h1, h2, -, -, -, h6⟩ := release_lock_frame
    (BlobManager.mk 5 3 1 [⟨true, 0⟩, ⟨false, 2⟩]) 0 3 (by decide)
  exact ⟨h1, h2 1 (by decide), h6⟩

/-- One call preserves `num_blobs ≤ m_max_blobs` (and the cap itself). -/
lemma step_cap (bm : BlobManager) (op : Op)
    (h : num_blobs bm ≤ bm.m_max_blobs) :
    num_blobs (step bm op) ≤ (step bm op).m_max_blobs ∧
    (step bm op).m_max_blobs = bm.m_max_blobs := by
  have hmb := (step_num_blobs bm op).2.2
  refine ⟨?_, hmb⟩
  rw [hmb]
  cases op with
  | req s =>
    show num_blobs (request_lock bm s).2 ≤ bm.m_max_blobs
    cases hr : (request_lock bm s).1 with
    | error e =>
      obtain ⟨-, hg⟩ := request_lock_error_spec bm s e (request_lock bm s).2
        (by rw [← hr])
      have hl := (get_next_none_locks bm _ hg).1
      show (request_lock bm s).2.m_blob_locks.length ≤ bm.m_max_blobs
      rw [hl]
      exact h
    | ok j =>
      obtain ⟨bm', hg, hb⟩ := request_lock_ok_spec bm s j (request_lock bm s).2
        (by rw [← hr])
      have hlk := (get_next_state bm).1
      rw [hg] at hlk
      show (request_lock bm s).2.m_blob_locks.length ≤ bm.m_max_blobs
      rw [hb]
      show (modify_record bm'.m_blob_locks j _).length ≤ bm.m_max_blobs
      rw [length_modify_record]
      rcases hlk with hsame | ⟨happ, hlt⟩
      · rw [show bm'.m_blob_locks = bm.m_blob_locks from hsame]
        exact h
      · rw [show bm'.m_blob_locks = bm.m_blob_locks ++ [(⟨false, 0⟩ : BlobRecord)]
          from happ]
        simp only [List.length_append, List.length_singleton]
        unfold num_blobs at hlt
        omega
  | rel i off =>
    show (modify_record bm.m_blob_locks i _).length ≤ bm.m_max_blobs
    rw [length_modify_record]
    exact h

/-- Any trace preserves `num_blobs ≤ m_max_blobs`. -/
lemma run_cap (bm : BlobManager) (ops : List Op)
    (h : num_blobs bm ≤ bm.m_max_blobs) :
    num_blobs (run bm ops) ≤ (run bm ops).m_max_blobs ∧
    (run bm ops).m_max_blobs = bm.m_max_blobs := by
  induction ops generalizing bm with
  | nil => exact ⟨h, rfl⟩
  | cons op ops ih =>
    obtain ⟨h1, h2⟩ := step_cap bm op h
    obtain ⟨h3, h4⟩ := ih (step bm op) h1
    show num_blobs (run (step bm op) ops) ≤ (run (step bm op) ops).m_max_blobs ∧
      (run (step bm op) ops).m_max_blobs = bm.m_max_blobs
    exact ⟨h3, by rw [h4, h2]⟩

/-- C5 counterexample: the constructor accepts `initial_nblobs = 2` with
`max_blobs = 1` (its only validity check is `initial_nblobs ≥ 1`), and
the resulting allocator already holds more records than `m_max_blobs`
before any call. -/
theorem segment_cap_counterexample :
    construct 1 2 1 =
      Except.ok (BlobManager.mk 1048576 1 0 [⟨false, 0⟩, ⟨false, 0⟩]) ∧
    (BlobManager.mk 1048576 1 0 [⟨false, 0⟩, ⟨false, 0⟩]).m_max_blobs <
      num_blobs (BlobManager.mk 1048576 1 0 [⟨false, 0⟩, ⟨false, 0⟩]) :=
  ⟨rfl, by decide⟩

/-- C5 (amended): for every allocator whose construction satisfies
`initial_nblobs ≤ max_blobs` (the code does not check this; with
`initial_nblobs > max_blobs` the record count exceeds the cap from the
start), `num_blobs` never exceeds `max_blobs` along any sequence of
`request_lock`/`release_lock` calls. -/
theorem segment_cap_amended (mb init : Int) (maxb : Nat) (bm : BlobManager)
    (hok : construct mb init maxb = Except.ok bm) (hinit : init.toNat ≤ maxb)
    (ops : List Op) :
    num_blobs (run bm ops) ≤ maxb := by
  unfold construct at hok
  by_cases h : init ≥ 1
  · rw [if_pos h] at hok
    obtain hbm := (Except.ok.injEq .. ▸ hok)
    subst hbm
    have hstart : num_blobs (BlobManager.mk (mb * 1024 * 1024) maxb 0
        (List.replicate init.toNat ⟨false, 0⟩)) ≤
        (BlobManager.mk (mb * 1024 * 1024) maxb 0
        (List.replicate init.toNat ⟨false, 0⟩)).m_max_blobs := by
      show (List.replicate init.toNat (⟨false, 0⟩ : BlobRecord)).length ≤ maxb
      rw [List.length_replicate]
      exact hinit
    obtain ⟨h1, h2⟩ := run_cap _ ops hstart
    rw [h2] at h1
    exact h1
  · rw [if_neg h] at hok
    cases hok

/-- C5 witness: one initial record, cap 3, three requests. -/
theorem segment_cap_amended_witness :
    num_blobs (run (BlobManager.mk (1 * 1024 * 1024) 3 0
      (List.replicate (Int.toNat 1) ⟨false, 0⟩))
      [Op.req 5, Op.req 5, Op.req 5]) ≤ 3 :=
  segment_cap_amended 1 1 3 _ rfl (by decide) [Op.req 5, Op.req 5, Op.req 5]

/-- C6: `0 ≤ search index` holds by the `Nat` representation, and the
index stays strictly below the record count: after a successful
construction, after every `request_lock` (successful or failing), and
after every `release_lock` on an in-range id. -/
theorem search_cursor_in_range :
    (∀ (mb init : Int) (maxb : Nat) (bm : BlobManager),
      construct mb init maxb = Except.ok bm →
      bm.m_blob_index < num_blobs bm) ∧
    (∀ (bm : BlobManager) (sz : Int), bm.m_blob_index < num_blobs bm →
      (request_lock bm sz).2.m_blob_index < num_blobs (request_lock bm sz).2) ∧
    (∀ (bm : BlobManager) (i : Nat) (off : Int),
      bm.m_blob_index < num_blobs bm → i < num_blobs bm →
      (release_lock bm i off).m_blob_index < num_blobs (release_lock bm i off)) := by
  refine ⟨?_, ?_, ?_⟩
  · intro mb init maxb bm hok
    unfold construct at hok
    by_cases h : init ≥ 1
    · rw [if_pos h] at hok
      obtain hbm := (Except.ok.injEq .. ▸ hok)
      subst hbm
      show 0 < (List.replicate init.toNat (⟨false, 0⟩ : BlobRecord)).length
      rw [List.length_replicate]
      omega
    · rw [if_neg h] at hok
      cases hok
  · intro bm sz hidx
    have hn : 0 < num_blobs bm := by omega
    have hlt := get_next_index_lt bm hn
    cases hr : (request_lock bm sz).1 with
    | error e =>
      obtain ⟨-, hg⟩ := request_lock_error_spec bm sz e (request_lock bm sz).2
        (by rw [← hr])
      rw [hg] at hlt
      exact hlt
    | ok j =>
      obtain ⟨bm', hg, hb⟩ := request_lock_ok_spec bm sz j (request_lock bm sz).2
        (by rw [← hr])
      rw [hg] at hlt
      rw [hb]
      show bm'.m_blob_index < num_blobs _
      show bm'.m_blob_index < (modify_record bm'.m_blob_locks j _).length
      rw [length_modify_record]
      exact hlt
  · intro bm i off hidx _
    show bm.m_blob_index < (modify_record bm.m_blob_locks i _).length
    rw [length_modify_record]
    exact hidx

/-- C6 witness: the three parts at concrete states. -/
theorem search_cursor_in_range_witness :
    (BlobManager.mk (1 * 1024 * 1024) 2 0
      (List.replicate (Int.toNat 1) ⟨false, 0⟩)).m_blob_index <
      num_blobs (BlobManager.mk (1 * 1024 * 1024) 2 0
        (List.replicate (Int.toNat 1) ⟨false, 0⟩)) ∧
    (request_lock (BlobManager.mk 5 1 0 [⟨true, 0⟩]) 0).2.m_blob_index <
      num_blobs (request_lock (BlobManager.mk 5 1 0 [⟨true, 0⟩]) 0).2 ∧
    (release_lock (BlobManager.mk 5 3 1 [⟨true, 0⟩, ⟨false, 2⟩]) 0 3).m_blob_index <
      num_blobs (release_lock (BlobManager.mk 5 3 1 [⟨true, 0⟩, ⟨false, 2⟩]) 0 3) :=
  ⟨search_cursor_in_range.1 1 1 2 _ rfl,
   search_cursor_in_range.2.1 (BlobManager.mk 5 1 0 [⟨true, 0⟩]) 0 (by decide),
   search_cursor_in_range.2.2 (BlobManager.mk 5 3 1 [⟨true, 0⟩, ⟨false, 2⟩]) 0 3
     (by decide) (by decide)⟩

/-- C3: with one initially empty record, cap 3 and maximum size `S > 0`:
the first `request_lock` returns id 0; after `release_lock 0 S` (record
full) the next `request_lock` returns the fresh id 1 and the record
count grows to 2.  In general, when no record is available and the cap
is not reached, `request_lock` appends a fresh record (write cursor 0),
returns its id `num_blobs bm` (the prior length) locked, and advances
the search index once. -/
theorem request_lock_growth :
    (∀ S sz1 sz2 : Int, 0 < S →
      (request_lock (BlobManager.mk S 3 0 [⟨false, 0⟩]) sz1).1 = Except.ok 0 ∧
      (request_lock (release_lock
          (request_lock (BlobManager.mk S 3 0 [⟨false, 0⟩]) sz1).2 0 S) sz2).1 =
        Except.ok 1 ∧
      num_blobs (request_lock (release_lock
          (request_lock (BlobManager.mk S 3 0 [⟨false, 0⟩]) sz1).2 0 S) sz2).2 =
        2) ∧
    (∀ (bm : BlobManager) (sz : Int), 0 < num_blobs bm →
      (∀ i, i < num_blobs bm → ¬ (blob_at bm i).is_available bm.m_max_blob_size) →
      num_blobs bm < bm.m_max_blobs →
      request_lock bm sz = (Except.ok (num_blobs bm),
        BlobManager.mk bm.m_max_blob_size bm.m_max_blobs
          (increment_blob_index bm.m_blob_locks.length bm.m_blob_index)
          (bm.m_blob_locks ++ [(⟨true, 0⟩ : BlobRecord)]))) := by
  have hgen : ∀ (bm : BlobManager) (sz : Int), 0 < num_blobs bm →
      (∀ i, i < num_blobs bm → ¬ (blob_at bm i).is_available bm.m_max_blob_size) →
      num_blobs bm < bm.m_max_blobs →
      request_lock bm sz = (Except.ok (num_blobs bm),
        BlobManager.mk bm.m_max_blob_size bm.m_max_blobs
          (increment_blob_index bm.m_blob_locks.length bm.m_blob_index)
          (bm.m_blob_locks ++ [(⟨true, 0⟩ : BlobRecord)])) := by
    intro bm sz hn hall hcap
    unfold request_lock
    rw [get_next_grow bm hn hall hcap]
    show (Except.ok (num_blobs bm), BlobManager.mk bm.m_max_blob_size
      bm.m_max_blobs (increment_blob_index bm.m_blob_locks.length bm.m_blob_index)
      (modify_record (bm.m_blob_locks ++ [(⟨false, 0⟩ : BlobRecord)])
        (num_blobs bm) (fun r => { r with locked := true }))) = _
    rw [show (num_blobs bm) = bm.m_blob_locks.length from rfl,
      modify_record_append]
  refine ⟨?_, hgen⟩
  intro S sz1 sz2 hS
  have hq1 : ((BlobManager.mk S 3 0 [⟨false, 0⟩]).m_blob_locks.getD
      (increment_blob_index (BlobManager.mk S 3 0 [⟨false, 0⟩]).m_blob_locks.length
        (BlobManager.mk S 3 0 [⟨false, 0⟩]).m_blob_index)
      blob_record_default).is_available
        (BlobManager.mk S 3 0 [⟨false, 0⟩]).m_max_blob_size := by
    exact ⟨rfl, hS⟩
  have h1 : request_lock (BlobManager.mk S 3 0 [⟨false, 0⟩]) sz1 =
      (Except.ok 0, BlobManager.mk S 3 0 [⟨true, 0⟩]) := by
    rw [request_lock_quick _ sz1 hq1]
    rfl
  have h15 : release_lock
      (request_lock (BlobManager.mk S 3 0 [⟨false, 0⟩]) sz1).2 0 S =
      BlobManager.mk S 3 0 [⟨false, S⟩] := by
    rw [h1]
    rfl
  have h2 := hgen (BlobManager.mk S 3 0 [⟨false, S⟩]) sz2 Nat.zero_lt_one
    (by
      intro i hi
      have hi' : i = 0 := by
        have : i < 1 := hi
        omega
      subst hi'
      intro hav
      exact absurd hav.2 (lt_irrefl S))
    (by
      show (1 : Nat) < 3
      norm_num)
  refine ⟨by rw [h1], ?_, ?_⟩
  · rw [h15, h2]
    rfl
  · rw [h15, h2]
    rfl

/-- C3 witness: the scenario at `S = 7`, and the growth branch at a
one-record pool whose record is locked. -/
theorem request_lock_growth_witness :
    (request_lock (BlobManager.mk 7 3 0 [⟨false, 0⟩]) 0).1 = Except.ok 0 ∧
    (request_lock (release_lock
        (request_lock (BlobManager.mk 7 3 0 [⟨false, 0⟩]) 0).2 0 7) 0).1 =
      Except.ok 1 ∧
    num_blobs (request_lock (release_lock
        (request_lock (BlobManager.mk 7 3 0 [⟨false, 0⟩]) 0).2 0 7) 0).2 = 2 ∧
    request_lock (BlobManager.mk 5 2 0 [⟨true, 0⟩]) 9 = (Except.ok 1,
      BlobManager.mk 5 2 0 [⟨true, 0⟩, ⟨true, 0⟩]) := by
  obtain ⟨h1, h2, h3⟩ := request_lock_growth.1 7 0 0 (by decide)
  refine ⟨h1, h2, h3, ?_⟩
  have h4 := request_lock_growth.2 (BlobManager.mk 5 2 0 [⟨true, 0⟩]) 9
    (by decide) (by decide) (by decide)
  exact h4

/-- C2: `request_lock` fails with `BlobLimitErr` exactly when every
record is locked or full (`m_max_blob_size ≤ current_blob_offset`) and
the record count has reached `m_max_blobs`; in particular, starting from
`N` unlocked empty records with maximum size `S > 0` and cap `N`, after
`N` requests (no releases) the `(N+1)`-th request fails. -/
theorem request_lock_capacity_iff :
    (∀ (bm : BlobManager) (sz : Int), 0 < num_blobs bm →
      ((request_lock bm sz).1 = Except.error VwErr.BlobLimitErr ↔
        (∀ i, i < num_blobs bm → (blob_at bm i).locked = true ∨
          bm.m_max_blob_size ≤ (blob_at bm i).current_blob_offset) ∧
        num_blobs bm ≥ bm.m_max_blobs)) ∧
    (∀ (N : Nat) (S sz : Int), 0 < N → 0 < S →
      (request_lock (iter_request N (fresh_pool S N)) sz).1 =
        Except.error VwErr.BlobLimitErr) := by
  have hiff : ∀ (bm : BlobManager) (sz : Int), 0 < num_blobs bm →
      ((request_lock bm sz).1 = Except.error VwErr.BlobLimitErr ↔
        (∀ i, i < num_blobs bm → (blob_at bm i).locked = true ∨
          bm.m_max_blob_size ≤ (blob_at bm i).current_blob_offset) ∧
        num_blobs bm ≥ bm.m_max_blobs) := by
    intro bm sz hn
    constructor
    · intro hr
      obtain ⟨-, hg⟩ := request_lock_error_spec bm sz VwErr.BlobLimitErr
        (request_lock bm sz).2 (by rw [← hr])
      obtain ⟨-, hcap, hall⟩ := get_next_none_spec bm hn (request_lock bm sz).2 hg
      refine ⟨?_, hcap⟩
      intro i hi
      have hnav := hall i hi
      unfold BlobRecord.is_available at hnav
      push_neg at hnav
      by_cases hl : (blob_at bm i).locked = true
      · exact Or.inl hl
      · exact Or.inr (hnav (by simpa using hl))
    · rintro ⟨hall, hcap⟩
      have hall' : ∀ i, i < num_blobs bm →
          ¬ (blob_at bm i).is_available bm.m_max_blob_size := by
        intro i hi hav
        rcases hall i hi with hl | hfull
        · rw [hav.1] at hl
          cases hl
        · exact absurd hav.2 (not_lt.mpr hfull)
      unfold request_lock
      rw [get_next_complete bm hn hall' hcap]
  refine ⟨hiff, ?_⟩
  intro N S sz hN hS
  obtain ⟨h1, h2, h3, -, h5⟩ := iter_request_inv N S hN hS N (le_refl N)
  have hlocked : ∀ i, i < num_blobs (iter_request N (fresh_pool S N)) →
      (blob_at (iter_request N (fresh_pool S N)) i).locked = true := by
    intro i hi
    apply all_locked_of_countP_eq
    · rw [show (iter_request N (fresh_pool S N)).m_blob_locks.countP
        BlobRecord.locked = locked_count (iter_request N (fresh_pool S N))
        from rfl, h5]
      rw [show (iter_request N (fresh_pool S N)).m_blob_locks.length =
        num_blobs (iter_request N (fresh_pool S N)) from rfl, h1]
    · exact hi
  exact (hiff (iter_request N (fresh_pool S N)) sz (by omega)).mpr
    ⟨fun i hi => Or.inl (hlocked i hi), by omega⟩

/-- C2 witness: a saturated one-record pool, and the `N = 2` scenario. -/
theorem request_lock_capacity_iff_witness :
    (request_lock (BlobManager.mk 5 1 0 [⟨true, 0⟩]) 0).1 =
      Except.error VwErr.BlobLimitErr ∧
    (request_lock (iter_request 2 (fresh_pool 5 2)) 0).1 =
      Except.error VwErr.BlobLimitErr := by
  constructor
  · exact (request_lock_capacity_iff.1 (BlobManager.mk 5 1 0 [⟨true, 0⟩]) 0
      (by decide)).mpr (by decide)
  · exact request_lock_capacity_iff.2 2 5 0 (by decide) (by decide)

/-- C4: on a pool whose records are all unlocked and below the maximum
size, rounds of `request_lock` immediately followed by `release_lock`
(at an offset below the maximum size) return ids that advance by one
position per round, wrapping at the record count, and the first
`num_blobs` ids contain no repeat. -/
theorem request_lock_round_robin (bm : BlobManager) (offs szs : Nat → Int)
    (hn : 0 < num_blobs bm) (hidx : bm.m_blob_index < num_blobs bm)
    (hfree : ∀ i, i < num_blobs bm → (blob_at bm i).locked = false ∧
      (blob_at bm i).current_blob_offset < bm.m_max_blob_size)
    (hoff : ∀ j, offs j < bm.m_max_blob_size) :
    cycle_ids offs szs (num_blobs bm) bm =
      (List.range (num_blobs bm)).map
        (fun j => (bm.m_blob_index + 1 + j) % num_blobs bm) ∧
    (cycle_ids offs szs (num_blobs bm) bm).Nodup := by
  have hform := cycle_ids_formula (num_blobs bm) offs szs bm hn hidx hfree hoff
  refine ⟨hform, ?_⟩
  rw [hform]
  refine List.Nodup.map_on ?_ (List.nodup_range _)
  intro x hx y hy hxy
  rw [List.mem_range] at hx hy
  have hme : x ≡ y [MOD num_blobs bm] :=
    Nat.ModEq.add_left_cancel' (bm.m_blob_index + 1) hxy
  unfold Nat.ModEq at hme
  rw [Nat.mod_eq_of_lt hx, Nat.mod_eq_of_lt hy] at hme
  exact hme

/-- C4 witness: four free records, cursor at 2; the ids cycle
3, 0, 1, 2 without repeats. -/
theorem request_lock_round_robin_witness :
    cycle_ids (fun _ => 1) (fun _ => 9) 4 (BlobManager.mk 5 9 2
      [⟨false, 0⟩, ⟨false, 1⟩, ⟨false, 2⟩, ⟨false, 3⟩]) = [3, 0, 1, 2] ∧
    (cycle_ids (fun _ => 1) (fun _ => 9) 4 (BlobManager.mk 5 9 2
      [⟨false, 0⟩, ⟨false, 1⟩, ⟨false, 2⟩, ⟨false, 3⟩])).Nodup := by
  obtain ⟨h1, h2⟩ := request_lock_round_robin (BlobManager.mk 5 9 2
      [⟨false, 0⟩, ⟨false, 1⟩, ⟨false, 2⟩, ⟨false, 3⟩]) (fun _ => 1) (fun _ => 9)
    (by decide) (by decide) (by decide) (fun j => by show (1 : Int) < 5; decide)
  refine ⟨?_, h2⟩
  show cycle_ids (fun _ => 1) (fun _ => 9) (num_blobs (BlobManager.mk 5 9 2
    [⟨false, 0⟩, ⟨false, 1⟩, ⟨false, 2⟩, ⟨false, 3⟩])) (BlobManager.mk 5 9 2
    [⟨false, 0⟩, ⟨false, 1⟩, ⟨false, 2⟩, ⟨false, 3⟩]) = [3, 0, 1, 2]
  rw [h1]
  rfl

/-- C1: a successfully returned id is locked in the post-state, stays
locked along any further single-threaded trace that never releases it,
and no `request_lock` along that trace returns the same id again. -/
theorem request_lock_exclusive_until_release (bm : BlobManager) (sz : Int)
    (i : Nat) (hn : 0 < num_blobs bm)
    (hok : (request_lock bm sz).1 = Except.ok i)
    (ops : List Op) (hops : ∀ off, Op.rel i off ∉ ops) :
    (blob_at (request_lock bm sz).2 i).locked = true ∧
    (blob_at (run (request_lock bm sz).2 ops) i).locked = true ∧
    ∀ sz2, (request_lock (run (request_lock bm sz).2 ops) sz2).1 ≠
      Except.ok i := by
  obtain ⟨hlk1, hilt1, -, -, -, -, -, -⟩ :=
    request_lock_ok_post bm sz i (request_lock bm sz).2 hn (by rw [← hok])
  obtain ⟨hlk2, hilt2, hn2⟩ := run_preserves_locked i ops (request_lock bm sz).2
    (by omega) hilt1 hlk1 hops
  refine ⟨hlk1, hlk2, ?_⟩
  intro sz2 hok2
  exact (request_lock_ne_locked _ sz2 i _ hn2 (by rw [← hok2]) i hilt2 hlk2) rfl

/-- C1 witness: two free records; the request returns id 1, and after a
further request (no release of 1) id 1 is still locked and is not
returned again. -/
theorem request_lock_exclusive_until_release_witness :
    (blob_at (request_lock (BlobManager.mk 10 3 0 [⟨false, 0⟩, ⟨false, 0⟩]) 0).2
      1).locked = true ∧
    (blob_at (run (request_lock (BlobManager.mk 10 3 0
      [⟨false, 0⟩, ⟨false, 0⟩]) 0).2 [Op.req 4]) 1).locked = true ∧
    (request_lock (run (request_lock (BlobManager.mk 10 3 0
      [⟨false, 0⟩, ⟨false, 0⟩]) 0).2 [Op.req 4]) 7).1 ≠ Except.ok 1 := by
  obtain ⟨h1, h2, h3⟩ := request_lock_exclusive_until_release
    (BlobManager.mk 10 3 0 [⟨false, 0⟩, ⟨false, 0⟩]) 0 1 (by decide) rfl
    [Op.req 4] (by intro off hmem; simp at hmem)
  exact ⟨h1, h2, h3 7⟩
